import Mathlib

/-!
Shallow embedding of the sonic speed-change library (src/sonic.c).

Modelling conventions:
* C `float`/`double` sample values and speed factors are modelled as `ℚ`;
  every arithmetic step of the source is mirrored exactly, and a C cast of a
  nonnegative `double` to `int` (truncation toward zero) is `Int.toNat ∘ Int.floor`
  (`truncNat` below).
* A sample buffer (`float *` plus a size and a used-length) is modelled by the
  list of its first `numInputSamples` (resp. `numOutputSamples`) cells, the
  valid prefix; the capacity is kept as a separate `ℕ` field.  A buffer pointer
  that has been overwritten with `NULL` by a failed `realloc` is `none`.
* `realloc` success is decided by an oracle `ℕ → Bool` carried in the stream
  state together with a counter `tick`: the n-th reallocation attempted on the
  stream succeeds iff `oracle n = true`.  This makes allocation failure an
  explicit, analysable event.
* C `int` fields that are always nonnegative along the modelled paths are `ℕ`.
-/

/-- Modelled from the spec: `sonic.h` is missing from `src/`, so the minimum
pitch constant `SONIC_MIN_PITCH` (the spec's `MIN_PITCH_HZ`, the lower bound
of the searched voice pitch range in Hz) has no value in the sources; 65 Hz is
the conventional lower voice-pitch bound and is consistent with the spec's
scenarios (e.g. `maxPeriod = 123` at 8 kHz gives output within one period of
2000 samples).  Every theorem that depends on the value says so in its
results entry. -/
def SONIC_MIN_PITCH : ℕ := 65

/-- Modelled from the spec: `sonic.h` is missing from `src/`, so the maximum
pitch constant `SONIC_MAX_PITCH` (the spec's `MAX_PITCH_HZ`, the upper bound
of the searched voice pitch range in Hz) has no value in the sources; 400 Hz
is the conventional upper voice-pitch bound.  The C3 counterexample below
holds for any value ≥ 2 of this constant. -/
def SONIC_MAX_PITCH : ℕ := 400

/-- Modelled from the spec: `sonic.h` is not under `src/`; the spec describes
`SONIC_AMDF_FREQ` as "a constant ≈11 kHz" used to pick the down-sampling
stride of the first AMDF pass. -/
def SONIC_AMDF_FREQ : ℕ := 11025

/-- Modelled from the spec: `sonic.h` is not under `src/`; the spec describes
`SONIC_AMDF_RANGE` as "a constant tolerance, e.g. 0.2" used to narrow the
second AMDF pass around the first pass's result. -/
def SONIC_AMDF_RANGE : ℚ := 1/5

/-- C cast of a nonnegative `double` to `int`: truncation toward zero, which is
the floor on the nonnegative values that occur along the modelled paths. -/
def truncNat (x : ℚ) : ℕ := (⌊x⌋).toNat

/-- The per-stream state `struct sonicStreamStruct` of src/sonic.c, with the two
sample arrays replaced by their valid prefixes (`Option` is `NULL`-ness of the
pointer) and an explicit `realloc` oracle. -/
structure SonicStream where
  speed : ℚ
  inputBuffer : Option (List ℚ)
  outputBuffer : Option (List ℚ)
  inputBufferSize : ℕ
  outputBufferSize : ℕ
  numInputSamples : ℕ
  numOutputSamples : ℕ
  minPeriod : ℕ
  maxPeriod : ℕ
  maxRequired : ℕ
  remainingInputToCopy : ℕ
  sampleRate : ℕ
  tick : ℕ
  oracle : ℕ → Bool

/-- `sonicCreateStream` (src/sonic.c lines 54-84), on the success path: both
buffers are `calloc`ed with capacity `maxRequired = 2*maxPeriod` and every
counter starts at 0 (`calloc` zero-fills the struct).  The `realloc` oracle of
the modelling is supplied at creation. -/
def sonicCreateStream (oracle : ℕ → Bool) (speed : ℚ) (sampleRate : ℕ) : SonicStream :=
  let minPeriod := sampleRate / SONIC_MAX_PITCH
  let maxPeriod := sampleRate / SONIC_MIN_PITCH
  let maxRequired := 2 * maxPeriod
  { speed := speed
    inputBuffer := some []
    outputBuffer := some []
    inputBufferSize := maxRequired
    outputBufferSize := maxRequired
    numInputSamples := 0
    numOutputSamples := 0
    minPeriod := minPeriod
    maxPeriod := maxPeriod
    maxRequired := maxRequired
    remainingInputToCopy := 0
    sampleRate := sampleRate
    tick := 0
    oracle := oracle }

/-- `enlargeOutputBufferIfNeeded` (src/sonic.c lines 87-100): grow the capacity
by half plus the requested amount when the request does not fit; on `realloc`
failure the C code has already stored the new size and overwrites the buffer
pointer with `NULL`, then returns 0. -/
def enlargeOutputBufferIfNeeded (s : SonicStream) (numSamples : ℕ) : Bool × SonicStream :=
  if s.outputBufferSize < s.numOutputSamples + numSamples then
    let s1 := { s with outputBufferSize := s.outputBufferSize + s.outputBufferSize / 2 + numSamples,
                       tick := s.tick + 1 }
    if s.oracle s.tick then (true, s1) else (false, { s1 with outputBuffer := none })
  else (true, s)

/-- `enlargeInputBufferIfNeeded` (src/sonic.c lines 103-116), same pattern as
the output-buffer version. -/
def enlargeInputBufferIfNeeded (s : SonicStream) (numSamples : ℕ) : Bool × SonicStream :=
  if s.inputBufferSize < s.numInputSamples + numSamples then
    let s1 := { s with inputBufferSize := s.inputBufferSize + s.inputBufferSize / 2 + numSamples,
                       tick := s.tick + 1 }
    if s.oracle s.tick then (true, s1) else (false, { s1 with inputBuffer := none })
  else (true, s)

/-- `addSamplesToInputBuffer` (src/sonic.c lines 119-133): a 0-sample add is an
immediate success; otherwise grow if needed, then `memcpy` the samples behind
the current valid prefix and bump `numInputSamples`. -/
def addSamplesToInputBuffer (s : SonicStream) (samples : List ℚ) : Bool × SonicStream :=
  if samples.length = 0 then (true, s)
  else
    let r := enlargeInputBufferIfNeeded s samples.length
    if r.1 then
      (true, { r.2 with inputBuffer := some (r.2.inputBuffer.getD [] ++ samples),
                        numInputSamples := r.2.numInputSamples + samples.length })
    else (false, r.2)

/-- `removeInputSamples` (src/sonic.c lines 136-147): drop the first `position`
samples of the input queue, `memmove`-ing the remainder to the front. -/
def removeInputSamples (s : SonicStream) (position : ℕ) : SonicStream :=
  { s with inputBuffer := some ((s.inputBuffer.getD []).drop position),
           numInputSamples := s.numInputSamples - position }

/-- `copyToOutput` (src/sonic.c lines 150-161): append the given samples to the
output queue, returning 0 on resize failure and the number of samples copied
otherwise (so a successful copy of 0 samples also returns 0). -/
def copyToOutput (s : SonicStream) (samples : List ℚ) : ℕ × SonicStream :=
  let r := enlargeOutputBufferIfNeeded s samples.length
  if r.1 then
    (samples.length, { r.2 with outputBuffer := some (r.2.outputBuffer.getD [] ++ samples),
                                numOutputSamples := r.2.numOutputSamples + samples.length })
  else (0, r.2)

/-- `copyInputToOutput` (src/sonic.c lines 165-179): pass through
`min(remainingInputToCopy, maxRequired)` input samples starting at `position`
verbatim; the debt counter is decremented only when `copyToOutput` reported a
nonzero count. -/
def copyInputToOutput (s : SonicStream) (position : ℕ) : ℕ × SonicStream :=
  let numSamples := min s.remainingInputToCopy s.maxRequired
  let r := copyToOutput s (((s.inputBuffer.getD []).drop position).take numSamples)
  if r.1 = 0 then (0, r.2)
  else (numSamples, { r.2 with remainingInputToCopy := r.2.remainingInputToCopy - numSamples })

/-- `sonicReadFromStream` (src/sonic.c lines 183-205): pop up to `maxSamples`
samples from the front of the output queue; an empty queue yields 0 samples and
is not an error.  The pair returned is (samples copied out, new state); the C
return value is the length of the first component. -/
def sonicReadFromStream (s : SonicStream) (maxSamples : ℕ) : List ℚ × SonicStream :=
  if s.numOutputSamples = 0 then ([], s)
  else
    let n := min s.numOutputSamples maxSamples
    let out := s.outputBuffer.getD []
    (out.take n, { s with outputBuffer := some (out.drop n),
                          numOutputSamples := s.numOutputSamples - n })

/-- `sonicSamplesAvailale` (src/sonic.c lines 232-236, the identifier's spelling
is the source's): number of samples ready to read. -/
def sonicSamplesAvailale (s : SonicStream) : ℕ := s.numOutputSamples

/-- The inner accumulation of `findPitchPeriodInRange` (src/sonic.c lines
256-261): the sum of `|samples[i] - samples[i+period]|` over
`i = 0, skip, 2*skip, … < period`.  The window is modelled as a total function
`ℕ → ℚ`; the driver instantiates it with reads from the input queue.  For
`skip ≥ 1` the index list below is exactly the C iteration space; `skip = 0`
does not terminate in C and is not used by any caller. -/
def amdfSum (w : ℕ → ℚ) (skip period : ℕ) : ℚ :=
  ((List.range' 0 ((period + skip - 1) / skip) skip).map
    (fun i => |w i - w (i + period)|)).sum

/-- The candidate-period loop of `findPitchPeriodInRange` (src/sonic.c lines
252-267), fuel-structured: `period` steps by `skip` while `period ≤ maxPeriod`;
a candidate displaces the current best only when its (un-normalised) sum is
strictly below `minDiff * period`, and then `minDiff` becomes the normalised
sum.  The fuel `maxPeriod + 1` used by `findPitchPeriodInRange` is never
exhausted when `skip ≥ 1`. -/
def fpprLoop (w : ℕ → ℚ) (maxPeriod skip : ℕ) :
    ℕ → ℕ → ℕ → ℚ → ℕ
  | 0, _, bestPeriod, _ => bestPeriod
  | fuel + 1, period, bestPeriod, minDiff =>
    if period ≤ maxPeriod then
      let diff := amdfSum w skip period
      if bestPeriod = 0 ∨ diff < minDiff * period then
        fpprLoop w maxPeriod skip fuel (period + skip) period (diff / period)
      else
        fpprLoop w maxPeriod skip fuel (period + skip) bestPeriod minDiff
    else bestPeriod

/-- `findPitchPeriodInRange` (src/sonic.c lines 239-269). -/
def findPitchPeriodInRange (w : ℕ → ℚ) (minPeriod maxPeriod skip : ℕ) : ℕ :=
  fpprLoop w maxPeriod skip (maxPeriod + 1) minPeriod 0 0

/-- `findPitchPeriod` (src/sonic.c lines 275-298): a decimated full-range AMDF
pass followed by a full-resolution pass over the narrowed range
`[period*(1-SONIC_AMDF_RANGE), period*(1+SONIC_AMDF_RANGE)]` clamped to the
stream's configured range. -/
def findPitchPeriod (s : SonicStream) (w : ℕ → ℚ) : ℕ :=
  let skip := if SONIC_AMDF_FREQ < s.sampleRate then s.sampleRate / SONIC_AMDF_FREQ else 1
  let period := findPitchPeriodInRange w s.minPeriod s.maxPeriod skip
  let minP := truncNat ((period : ℚ) * (1 - SONIC_AMDF_RANGE))
  let maxP := truncNat ((period : ℚ) * (1 + SONIC_AMDF_RANGE))
  let minP := if minP < s.minPeriod then s.minPeriod else minP
  let maxP := if s.maxPeriod < maxP then s.maxPeriod else maxP
  findPitchPeriodInRange w minP maxP 1

/-- `skipPitchPeriod` (src/sonic.c lines 301-327).  For `speed ≥ 2` the whole
period is consumed here; for `1 < speed < 2` a verbatim-copy debt is recorded
in `remainingInputToCopy`.  The crossfaded run is appended only when the output
buffer could be enlarged; otherwise 0 is returned.  (The C `newSamples` is
uninitialised for `speed ≤ 1`; no caller passes such a speed, and the model
reuses the second branch there.) -/
def skipPitchPeriod (s : SonicStream) (w : ℕ → ℚ) (speed : ℚ) (period : ℕ) :
    ℕ × SonicStream :=
  let p : ℕ × SonicStream :=
    if 2 ≤ speed then (truncNat ((period : ℚ) / (speed - 1)), s)
    else (period,
      { s with remainingInputToCopy := truncNat ((period : ℚ) * (2 - speed) / (speed - 1)) })
  let newSamples := p.1
  let scale : ℚ := 1 / newSamples
  let r := enlargeOutputBufferIfNeeded p.2 newSamples
  if r.1 then
    (newSamples,
      { r.2 with
        outputBuffer := some (r.2.outputBuffer.getD [] ++
          (List.range newSamples).map
            (fun t => scale * (w t * ((newSamples : ℚ) - t) + w (t + period) * t))),
        numOutputSamples := r.2.numOutputSamples + newSamples })
  else (0, r.2)

/-- `insertPitchPeriod` (src/sonic.c lines 330-358): the detected period is
copied verbatim, then a crossfaded run of `newSamples` follows; the debt
counter is set for `speed ≥ 0.5` (before the enlargement attempt, as in C). -/
def insertPitchPeriod (s : SonicStream) (w : ℕ → ℚ) (speed : ℚ) (period : ℕ) :
    ℕ × SonicStream :=
  let p : ℕ × SonicStream :=
    if speed < 1/2 then (truncNat ((period : ℚ) * speed / (1 - speed)), s)
    else (period,
      { s with remainingInputToCopy := truncNat ((period : ℚ) * (2 * speed - 1) / (1 - speed)) })
  let newSamples := p.1
  let r := enlargeOutputBufferIfNeeded p.2 (period + newSamples)
  if r.1 then
    let scale : ℚ := 1 / newSamples
    (newSamples,
      { r.2 with
        outputBuffer := some (r.2.outputBuffer.getD [] ++
          (List.range period).map w ++
          (List.range newSamples).map
            (fun t => scale * (w t * t + w (t + period) * ((newSamples : ℚ) - t)))),
        numOutputSamples := r.2.numOutputSamples + (period + newSamples) })
  else (0, r.2)

/-- The window the driver hands to the pitch estimator and the resampler:
`stream->inputBuffer + position` (src/sonic.c lines 388-393). -/
def winAt (s : SonicStream) (position : ℕ) : ℕ → ℚ :=
  fun i => (s.inputBuffer.getD []).getD (position + i) 0

/-- One iteration of the do-while body of `sonicWriteToStream` (src/sonic.c
lines 383-396): either pay down the verbatim-copy debt, or detect a period and
skip (speed > 1) or insert (speed < 1) it.  Returns
`(newSamples, new position, new state)`. -/
def writeStep (speed : ℚ) (s : SonicStream) (position : ℕ) : ℕ × ℕ × SonicStream :=
  if 0 < s.remainingInputToCopy then
    let r := copyInputToOutput s position
    (r.1, position + r.1, r.2)
  else
    let period := findPitchPeriod s (winAt s position)
    if 1 < speed then
      let r := skipPitchPeriod s (winAt s position) speed period
      (r.1, position + period + r.1, r.2)
    else
      let r := insertPitchPeriod s (winAt s position) speed period
      (r.1, position + r.1, r.2)

/-- The do-while loop of `sonicWriteToStream` (src/sonic.c lines 383-402),
fuel-structured: a zero `newSamples` aborts with result 0; otherwise the loop
continues while `position + maxRequired ≤ numSamples` and on exit discards the
consumed prefix via `removeInputSamples` and returns 1.  Every continuing
iteration strictly increases `position` (its `newSamples` is nonzero), and the
loop is entered with `position = 0` and continues only while
`position ≤ numSamples`, so the fuel `numSamples + 1` supplied by
`sonicWriteToStream` is never exhausted. -/
def writeLoop (speed : ℚ) (maxRequired numSamples : ℕ) :
    ℕ → ℕ → SonicStream → ℕ × SonicStream
  | 0, _, s => (0, s)
  | fuel + 1, position, s =>
    let r := writeStep speed s position
    if r.1 = 0 then (0, r.2.2)
    else if r.2.1 + maxRequired ≤ numSamples then
      writeLoop speed maxRequired numSamples fuel r.2.1 r.2.2
    else (1, removeInputSamples r.2.2 r.2.1)

/-- `sonicWriteToStream` (src/sonic.c lines 362-403).  In the identity speed
window the input is copied straight to the output queue and `copyToOutput`'s
sample count is returned; otherwise the samples join the input queue and, once
at least `maxRequired` samples are buffered, the resampling loop runs. -/
def sonicWriteToStream (s : SonicStream) (samples : List ℚ) : ℕ × SonicStream :=
  let speed := s.speed
  let maxRequired := s.maxRequired
  if 999999/1000000 < speed ∧ speed < 1000001/1000000 then
    copyToOutput s samples
  else
    let r := addSamplesToInputBuffer s samples
    if r.1 then
      if r.2.numInputSamples < maxRequired then (1, r.2)
      else
        let numSamples := r.2.numInputSamples
        writeLoop speed maxRequired numSamples (numSamples + 1) 0 r.2
    else (0, r.2)

/-- `sonicFlushStream` (src/sonic.c lines 211-229): an empty input queue is an
immediate success; otherwise, if at least `maxRequired` samples are queued a
write pass runs first (propagating its failure), then the input queue is padded
with zeros up to `maxRequired` samples and a final write pass is forced. -/
def sonicFlushStream (s : SonicStream) : ℕ × SonicStream :=
  let maxRequired := s.maxRequired
  let numSamples := s.numInputSamples
  if numSamples = 0 then (1, s)
  else
    let r := if maxRequired ≤ numSamples then sonicWriteToStream s [] else (1, s)
    if r.1 = 0 then (0, r.2)
    else
      let s1 := r.2
      let remainingSpace := maxRequired - s1.numInputSamples
      let s2 := { s1 with
        inputBuffer := some (s1.inputBuffer.getD [] ++ List.replicate remainingSpace 0),
        numInputSamples := maxRequired }
      sonicWriteToStream s2 []


/-- The configuration derived once at creation: `(minPeriod, maxPeriod,
maxRequired)`.  Used to state that no operation ever mutates these fields. -/
def SonicStream.periodCfg (s : SonicStream) : ℕ × ℕ × ℕ :=
  (s.minPeriod, s.maxPeriod, s.maxRequired)

theorem periodCfg_enlargeOutput (s : SonicStream) (n : ℕ) :
    (enlargeOutputBufferIfNeeded s n).2.periodCfg = s.periodCfg := by
  simp only [enlargeOutputBufferIfNeeded]
  split_ifs <;> rfl

theorem periodCfg_enlargeInput (s : SonicStream) (n : ℕ) :
    (enlargeInputBufferIfNeeded s n).2.periodCfg = s.periodCfg := by
  simp only [enlargeInputBufferIfNeeded]
  split_ifs <;> rfl

theorem periodCfg_addSamples (s : SonicStream) (cs : List ℚ) :
    (addSamplesToInputBuffer s cs).2.periodCfg = s.periodCfg := by
  simp only [addSamplesToInputBuffer]
  split_ifs
  · rfl
  · exact periodCfg_enlargeInput s cs.length
  · exact periodCfg_enlargeInput s cs.length

theorem periodCfg_removeInput (s : SonicStream) (position : ℕ) :
    (removeInputSamples s position).periodCfg = s.periodCfg := rfl

theorem periodCfg_copyToOutput (s : SonicStream) (cs : List ℚ) :
    (copyToOutput s cs).2.periodCfg = s.periodCfg := by
  simp only [copyToOutput]
  split_ifs
  · exact periodCfg_enlargeOutput s cs.length
  · exact periodCfg_enlargeOutput s cs.length

theorem periodCfg_copyInputToOutput (s : SonicStream) (position : ℕ) :
    (copyInputToOutput s position).2.periodCfg = s.periodCfg := by
  simp only [copyInputToOutput]
  split_ifs
  · exact periodCfg_copyToOutput s _
  · exact periodCfg_copyToOutput s _

theorem periodCfg_skipPitchPeriod (s : SonicStream) (w : ℕ → ℚ) (speed : ℚ) (period : ℕ) :
    (skipPitchPeriod s w speed period).2.periodCfg = s.periodCfg := by
  simp only [skipPitchPeriod]
  split_ifs
  · exact periodCfg_enlargeOutput s _
  · exact periodCfg_enlargeOutput s _
  · exact periodCfg_enlargeOutput _ _
  · exact periodCfg_enlargeOutput _ _

theorem periodCfg_insertPitchPeriod (s : SonicStream) (w : ℕ → ℚ) (speed : ℚ) (period : ℕ) :
    (insertPitchPeriod s w speed period).2.periodCfg = s.periodCfg := by
  simp only [insertPitchPeriod]
  split_ifs
  · exact periodCfg_enlargeOutput s _
  · exact periodCfg_enlargeOutput s _
  · exact periodCfg_enlargeOutput _ _
  · exact periodCfg_enlargeOutput _ _

theorem periodCfg_writeStep (speed : ℚ) (s : SonicStream) (position : ℕ) :
    (writeStep speed s position).2.2.periodCfg = s.periodCfg := by
  simp only [writeStep]
  split_ifs
  · exact periodCfg_copyInputToOutput s position
  · exact periodCfg_skipPitchPeriod s _ speed _
  · exact periodCfg_insertPitchPeriod s _ speed _

theorem periodCfg_writeLoop (speed : ℚ) (maxRequired numSamples : ℕ) :
    ∀ (fuel position : ℕ) (s : SonicStream),
      (writeLoop speed maxRequired numSamples fuel position s).2.periodCfg = s.periodCfg := by
  intro fuel
  induction fuel with
  | zero => intro position s; rfl
  | succ n ih =>
    intro position s
    simp only [writeLoop]
    split_ifs
    · exact periodCfg_writeStep speed s position
    · exact (ih _ _).trans (periodCfg_writeStep speed s position)
    · exact (periodCfg_removeInput _ _).trans (periodCfg_writeStep speed s position)

theorem periodCfg_write (s : SonicStream) (cs : List ℚ) :
    (sonicWriteToStream s cs).2.periodCfg = s.periodCfg := by
  simp only [sonicWriteToStream]
  split_ifs
  · exact periodCfg_copyToOutput s cs
  · exact periodCfg_addSamples s cs
  · exact (periodCfg_writeLoop _ _ _ _ _ _).trans (periodCfg_addSamples s cs)
  · exact periodCfg_addSamples s cs

theorem periodCfg_read (s : SonicStream) (k : ℕ) :
    (sonicReadFromStream s k).2.periodCfg = s.periodCfg := by
  simp only [sonicReadFromStream]
  split_ifs <;> rfl

theorem periodCfg_flush (s : SonicStream) :
    (sonicFlushStream s).2.periodCfg = s.periodCfg := by
  simp only [sonicFlushStream]
  split_ifs
  · rfl
  · simpa using periodCfg_write s []
  · exact (periodCfg_write _ _).trans (periodCfg_write s [])
  · rfl
  · exact (periodCfg_write _ _).trans rfl

/-- C3 counterexample: at `sampleRate = 1` (a positive sample rate) the integer
division `sampleRate / SONIC_MAX_PITCH` yields `minPeriod = 0` immediately
after creation, so the claimed `0 < minPeriod` fails. -/
theorem c3_cex_minPeriod_zero :
    (sonicCreateStream (fun _ => true) 1 1).minPeriod = 0 := by decide

/-- C3 (amended): for every speed and every `sampleRate ≥ SONIC_MAX_PITCH` (so
that the integer division is positive; for smaller positive rates `minPeriod`
is 0), immediately after `sonicCreateStream` the stream satisfies
`0 < minPeriod ≤ maxPeriod` and `maxRequired = 2*maxPeriod`, and no subsequent
write/read/flush operation ever mutates `minPeriod`, `maxPeriod` or
`maxRequired`. -/
theorem c3_period_bounds_invariant (oracle : ℕ → Bool) (speed : ℚ) (sampleRate : ℕ)
    (h : SONIC_MAX_PITCH ≤ sampleRate) :
    (0 < (sonicCreateStream oracle speed sampleRate).minPeriod ∧
      (sonicCreateStream oracle speed sampleRate).minPeriod ≤
        (sonicCreateStream oracle speed sampleRate).maxPeriod ∧
      (sonicCreateStream oracle speed sampleRate).maxRequired =
        2 * (sonicCreateStream oracle speed sampleRate).maxPeriod) ∧
    (∀ (s : SonicStream) (cs : List ℚ), (sonicWriteToStream s cs).2.periodCfg = s.periodCfg) ∧
    (∀ (s : SonicStream) (k : ℕ), (sonicReadFromStream s k).2.periodCfg = s.periodCfg) ∧
    (∀ s : SonicStream, (sonicFlushStream s).2.periodCfg = s.periodCfg) := by
  refine ⟨⟨?_, ?_, rfl⟩, periodCfg_write, periodCfg_read, periodCfg_flush⟩
  · exact Nat.div_pos h (by norm_num [SONIC_MAX_PITCH])
  · exact Nat.div_le_div_left (by norm_num [SONIC_MIN_PITCH, SONIC_MAX_PITCH]) (by norm_num [SONIC_MIN_PITCH])

/-- C3 witness: the amended invariant instantiated at `sampleRate = 8000`. -/
theorem c3_period_bounds_invariant_w :
    SONIC_MAX_PITCH ≤ 8000 ∧
      0 < (sonicCreateStream (fun _ => true) 1 8000).minPeriod :=
  ⟨by decide, (c3_period_bounds_invariant (fun _ => true) 1 8000 (by decide)).1.1⟩

/-- Full behaviour of one `sonicReadFromStream` call on a well-formed output
queue: it pops `min(length, maxSamples)` samples off the front, keeps the rest
in order, and touches nothing else. -/
theorem read_spec (s : SonicStream) (out : List ℚ) (k : ℕ)
    (hout : s.outputBuffer = some out) (hnum : s.numOutputSamples = out.length) :
    (sonicReadFromStream s k).1 = out.take k ∧
    (sonicReadFromStream s k).2.outputBuffer = some (out.drop k) ∧
    (sonicReadFromStream s k).2.numOutputSamples = out.length - k ∧
    (sonicReadFromStream s k).2.numInputSamples = s.numInputSamples ∧
    (sonicReadFromStream s k).2.inputBuffer = s.inputBuffer := by
  simp only [sonicReadFromStream, hout, hnum, Option.getD_some]
  split_ifs with h0
  · have hnil : out = [] := List.length_eq_zero.mp h0
    subst hnil
    simp [hout, hnum, h0]
  · rcases le_or_lt k out.length with hk | hk
    · simp [min_eq_right hk]
    · have h1 : out.take (min out.length k) = out.take k := by
        rw [min_eq_left hk.le, List.take_length, List.take_of_length_le hk.le]
      have h2 : out.drop (min out.length k) = out.drop k := by
        rw [min_eq_left hk.le, List.drop_length, (List.drop_eq_nil_iff).mpr hk.le]
      simp [h1, h2, min_eq_left hk.le]
      omega

/-- C8: reading the output queue in two chunks of sizes `k` and `m` yields the
same concatenated sample sequence as one read of `k + m`; each read copies
`min(available, maxSamples)` samples from the front in FIFO order (0 when
empty, which is not an error) and leaves the remainder compacted to the front
in order. -/
theorem c8_read_chunks_fifo (s : SonicStream) (out : List ℚ) (k m : ℕ)
    (hout : s.outputBuffer = some out) (hnum : s.numOutputSamples = out.length) :
    (sonicReadFromStream s k).1 ++ (sonicReadFromStream (sonicReadFromStream s k).2 m).1 =
      (sonicReadFromStream s (k + m)).1 ∧
    (sonicReadFromStream s k).1.length = min out.length k ∧
    (sonicReadFromStream s k).2.outputBuffer = some (out.drop k) := by
  obtain ⟨h1, h2, h3, -, -⟩ := read_spec s out k hout hnum
  obtain ⟨g1, -, -, -, -⟩ := read_spec (sonicReadFromStream s k).2 (out.drop k) m h2
    (by rw [h3, List.length_drop])
  obtain ⟨f1, -, -, -, -⟩ := read_spec s out (k + m) hout hnum
  refine ⟨?_, ?_, h2⟩
  · rw [h1, g1, f1, List.take_add]
  · rw [h1, List.length_take, Nat.min_comm]

/-- C8 witness: the FIFO chunk property at a concrete stream holding
`[1, 2, 3]` with `k = 2`, `m = 2`. -/
theorem c8_read_chunks_fifo_w :
    let s : SonicStream :=
      { speed := 2, inputBuffer := some [], outputBuffer := some [1, 2, 3],
        inputBufferSize := 6, outputBufferSize := 6, numInputSamples := 0,
        numOutputSamples := 3, minPeriod := 2, maxPeriod := 3, maxRequired := 6,
        remainingInputToCopy := 0, sampleRate := 100, tick := 0, oracle := fun _ => true }
    (sonicReadFromStream s 2).1 ++ (sonicReadFromStream (sonicReadFromStream s 2).2 2).1 =
      (sonicReadFromStream s (2 + 2)).1 ∧
    (sonicReadFromStream s 2).1.length = min ([1, 2, 3] : List ℚ).length 2 ∧
    (sonicReadFromStream s 2).2.outputBuffer = some (([1, 2, 3] : List ℚ).drop 2) :=
  c8_read_chunks_fifo _ [1, 2, 3] 2 2 rfl rfl

/-- C9 (amended): `addSamplesToInputBuffer` fails only when reallocation fails
(the oracle refuses while growth is needed); on failure `numInputSamples` is
unmodified, but the stream's buffer pointer has been overwritten with `NULL`
by the failed `realloc` (the prior contents are no longer reachable through
the stream) and the recorded capacity has already grown.  On success exactly
the given samples are appended at the end and the length increases by their
count, with the capacity grown beforehand exactly when `length + n` exceeds
it. -/
theorem c9_addSamples_append (s : SonicStream) (xs cs : List ℚ)
    (hin : s.inputBuffer = some xs) :
    ((addSamplesToInputBuffer s cs).1 = false →
      s.oracle s.tick = false ∧ s.inputBufferSize < s.numInputSamples + cs.length) ∧
    ((addSamplesToInputBuffer s cs).1 = false →
      (addSamplesToInputBuffer s cs).2.numInputSamples = s.numInputSamples ∧
      (addSamplesToInputBuffer s cs).2.inputBuffer = none ∧
      s.inputBufferSize < (addSamplesToInputBuffer s cs).2.inputBufferSize) ∧
    ((addSamplesToInputBuffer s cs).1 = true →
      (addSamplesToInputBuffer s cs).2.inputBuffer = some (xs ++ cs) ∧
      (addSamplesToInputBuffer s cs).2.numInputSamples = s.numInputSamples + cs.length) ∧
    (s.numInputSamples + cs.length ≤ s.inputBufferSize →
      (addSamplesToInputBuffer s cs).2.inputBufferSize = s.inputBufferSize) ∧
    ((addSamplesToInputBuffer s cs).1 = true → s.numInputSamples ≤ s.inputBufferSize →
      s.numInputSamples + cs.length ≤ (addSamplesToInputBuffer s cs).2.inputBufferSize) := by
  by_cases h0 : cs.length = 0
  · have hcs : cs = [] := List.length_eq_zero.mp h0
    subst hcs
    simp [addSamplesToInputBuffer, hin]
  · by_cases h1 : s.inputBufferSize < s.numInputSamples + cs.length
    · by_cases h2 : s.oracle s.tick = true
      · have key : addSamplesToInputBuffer s cs =
            (true, { s with inputBuffer := some (xs ++ cs),
                            inputBufferSize :=
                              s.inputBufferSize + s.inputBufferSize / 2 + cs.length,
                            numInputSamples := s.numInputSamples + cs.length,
                            tick := s.tick + 1 }) := by
          simp [addSamplesToInputBuffer, enlargeInputBufferIfNeeded, h0, h1, h2, hin]
        rw [key]
        exact ⟨by simp, by simp, fun _ => ⟨rfl, rfl⟩, fun h => by omega,
          fun _ h => by simp; omega⟩
      · have key : addSamplesToInputBuffer s cs =
            (false, { s with inputBuffer := none,
                             inputBufferSize :=
                               s.inputBufferSize + s.inputBufferSize / 2 + cs.length,
                             tick := s.tick + 1 }) := by
          simp [addSamplesToInputBuffer, enlargeInputBufferIfNeeded, h0, h1, h2]
        rw [key]
        exact ⟨fun _ => ⟨by simpa using h2, h1⟩, fun _ => ⟨rfl, rfl, by simp; omega⟩,
          by simp, fun h => by omega, by simp⟩
    · have key : addSamplesToInputBuffer s cs =
          (true, { s with inputBuffer := some (xs ++ cs),
                          numInputSamples := s.numInputSamples + cs.length }) := by
        simp [addSamplesToInputBuffer, enlargeInputBufferIfNeeded, h0, h1, hin]
      rw [key]
      exact ⟨by simp, by simp, fun _ => ⟨rfl, rfl⟩, fun _ => rfl, fun _ _ => by simp; omega⟩

/-- A stream state used as the C9 counterexample: one queued sample, a full
1-cell input buffer, and an allocator that refuses every request. -/
def c9CexStream : SonicStream :=
  { speed := 2, inputBuffer := some [5], outputBuffer := some [],
    inputBufferSize := 1, outputBufferSize := 1, numInputSamples := 1,
    numOutputSamples := 0, minPeriod := 2, maxPeriod := 3, maxRequired := 6,
    remainingInputToCopy := 0, sampleRate := 100, tick := 0, oracle := fun _ => false }

/-- C9 counterexample: on a failing append the buffer's prior contents are NOT
left intact — the stream's buffer pointer is `NULL` afterwards (the C code
overwrote it with `realloc`'s result) and the recorded capacity has grown from
1 to 2, refuting the claimed "prior contents left intact". -/
theorem c9_cex_contents_lost :
    (addSamplesToInputBuffer c9CexStream [7]).1 = false ∧
    (addSamplesToInputBuffer c9CexStream [7]).2.inputBuffer = none ∧
    (addSamplesToInputBuffer c9CexStream [7]).2.inputBuffer ≠ c9CexStream.inputBuffer ∧
    (addSamplesToInputBuffer c9CexStream [7]).2.inputBufferSize = 2 ∧
    c9CexStream.inputBufferSize = 1 := by decide

/-- C9 witness: a successful growing append, via `c9_addSamples_append`. -/
theorem c9_addSamples_append_w :
    let s : SonicStream :=
      { speed := 2, inputBuffer := some [5], outputBuffer := some [],
        inputBufferSize := 1, outputBufferSize := 1, numInputSamples := 1,
        numOutputSamples := 0, minPeriod := 2, maxPeriod := 3, maxRequired := 6,
        remainingInputToCopy := 0, sampleRate := 100, tick := 0, oracle := fun _ => true }
    (addSamplesToInputBuffer s [7]).2.inputBuffer = some ([5] ++ [7]) ∧
    (addSamplesToInputBuffer s [7]).2.numInputSamples = 1 + 1 :=
  (c9_addSamples_append _ [5] [7] rfl).2.2.1 (by decide)

/-- C10 (amended): in the identity speed window a zero-sample write returns 0 —
`copyToOutput`'s sample count, the value otherwise documented as allocation
failure — with no allocation attempted and the state unchanged; for every
other speed a zero-sample write returns 1 and changes nothing, provided fewer
than `maxRequired` input samples are buffered (otherwise the resampling loop
runs and its own outcome is returned). -/
theorem c10_zero_sample_write (s : SonicStream) (out : List ℚ)
    (hout : s.outputBuffer = some out) (hcap : s.numOutputSamples ≤ s.outputBufferSize) :
    ((999999/1000000 : ℚ) < s.speed ∧ s.speed < 1000001/1000000 →
      sonicWriteToStream s [] = (0, s)) ∧
    (¬((999999/1000000 : ℚ) < s.speed ∧ s.speed < 1000001/1000000) →
      s.numInputSamples < s.maxRequired → sonicWriteToStream s [] = (1, s)) := by
  constructor
  · intro hid
    have hgrow : ¬ (s.outputBufferSize < s.numOutputSamples) := by omega
    simp [sonicWriteToStream, if_pos hid, copyToOutput, enlargeOutputBufferIfNeeded,
      if_neg hgrow, hout]
    rw [← hout]
  · intro hnid hlt
    simp [sonicWriteToStream, if_neg hnid, addSamplesToInputBuffer, hlt]

/-- A stream state used as the C10 counterexample: non-identity speed with a
full analysis window buffered and an allocator that refuses every request. -/
def c10CexStream : SonicStream :=
  { speed := 2, inputBuffer := some [0, 0, 0, 0, 0, 0], outputBuffer := some [],
    inputBufferSize := 6, outputBufferSize := 0, numInputSamples := 6,
    numOutputSamples := 0, minPeriod := 2, maxPeriod := 3, maxRequired := 6,
    remainingInputToCopy := 0, sampleRate := 100, tick := 0, oracle := fun _ => false }

set_option maxRecDepth 10000 in
attribute [local semireducible] Rat.add Rat.mul Rat.inv Rat.sub Rat.ofScientific in
/-- C10 counterexample: the claim's second half ("for all other speeds a
zero-sample write returns 1") fails once `maxRequired` samples are buffered:
at speed 2 with a full window queued, the zero-sample write runs the driver
loop, whose output-buffer enlargement fails, and 0 is returned. -/
theorem c10_cex_loop_failure :
    (sonicWriteToStream c10CexStream []).1 = 0 ∧ c10CexStream.speed = 2 := by
  constructor <;> decide

/-- C10 witness: the amended statement applied at a concrete identity-speed
stream and at a concrete speed-2 stream with an underfull input queue. -/
theorem c10_zero_sample_write_w :
    let sId : SonicStream :=
      { speed := 1, inputBuffer := some [], outputBuffer := some [1],
        inputBufferSize := 6, outputBufferSize := 6, numInputSamples := 0,
        numOutputSamples := 1, minPeriod := 2, maxPeriod := 3, maxRequired := 6,
        remainingInputToCopy := 0, sampleRate := 100, tick := 0, oracle := fun _ => true }
    let sNid : SonicStream :=
      { speed := 2, inputBuffer := some [0], outputBuffer := some [],
        inputBufferSize := 6, outputBufferSize := 6, numInputSamples := 1,
        numOutputSamples := 0, minPeriod := 2, maxPeriod := 3, maxRequired := 6,
        remainingInputToCopy := 0, sampleRate := 100, tick := 0, oracle := fun _ => true }
    sonicWriteToStream sId [] = (0, sId) ∧ sonicWriteToStream sNid [] = (1, sNid) :=
  ⟨(c10_zero_sample_write _ [1] rfl (by decide)).1 (by norm_num),
   (c10_zero_sample_write _ [] rfl (by decide)).2 (by norm_num) (by decide)⟩

/-- A stream state with `minPeriod = maxPeriod = 1` (as created at
`sampleRate = SONIC_MAX_PITCH`), speed 3, a full analysis window of zeros, and
an allocator that always succeeds; used to exhibit the C4 failing input. -/
def c4CexStream : SonicStream :=
  { speed := 3, inputBuffer := some [0, 0], outputBuffer := some [],
    inputBufferSize := 2, outputBufferSize := 10, numInputSamples := 2,
    numOutputSamples := 0, minPeriod := 1, maxPeriod := 1, maxRequired := 2,
    remainingInputToCopy := 0, sampleRate := 100, tick := 0, oracle := fun _ => true }

set_option maxRecDepth 10000 in
attribute [local semireducible] Rat.add Rat.mul Rat.inv Rat.sub Rat.ofScientific in
/-- C4 failing input: `skipPitchPeriod` at speed 3 with period 1 (which lies in
`[minPeriod, maxPeriod] = [1, 1]`) returns `newSamples = 0` by pure integer
truncation of `period/(speed-1) = 1/2`, while the output buffer was never
reallocated (the pointer is intact and the allocation counter untouched); the
driver then aborts the whole write with the result 0 that the source comments
document as "failed to resize output buffer", even though the allocator
succeeded at every request. -/
theorem c4_newSamples_zero_without_alloc_failure :
    (skipPitchPeriod c4CexStream (fun _ => 0) 3 1).1 = 0 ∧
    (skipPitchPeriod c4CexStream (fun _ => 0) 3 1).2.outputBuffer = some [] ∧
    (skipPitchPeriod c4CexStream (fun _ => 0) 3 1).2.tick = 0 ∧
    (sonicWriteToStream c4CexStream []).1 = 0 ∧
    (sonicWriteToStream c4CexStream []).2.tick = 0 := by
  refine ⟨by decide, by decide, by decide, by decide, by decide⟩

theorem numInput_enlargeOutput (s : SonicStream) (n : ℕ) :
    (enlargeOutputBufferIfNeeded s n).2.numInputSamples = s.numInputSamples ∧
    (enlargeOutputBufferIfNeeded s n).2.inputBuffer = s.inputBuffer := by
  simp only [enlargeOutputBufferIfNeeded]
  split_ifs <;> exact ⟨rfl, rfl⟩

theorem numInput_copyToOutput (s : SonicStream) (cs : List ℚ) :
    (copyToOutput s cs).2.numInputSamples = s.numInputSamples ∧
    (copyToOutput s cs).2.inputBuffer = s.inputBuffer := by
  simp only [copyToOutput]
  split_ifs <;> exact numInput_enlargeOutput s cs.length

theorem numInput_copyInputToOutput (s : SonicStream) (position : ℕ) :
    (copyInputToOutput s position).2.numInputSamples = s.numInputSamples ∧
    (copyInputToOutput s position).2.inputBuffer = s.inputBuffer := by
  simp only [copyInputToOutput]
  split_ifs <;> exact numInput_copyToOutput s _

theorem numInput_skipPitchPeriod (s : SonicStream) (w : ℕ → ℚ) (speed : ℚ) (period : ℕ) :
    (skipPitchPeriod s w speed period).2.numInputSamples = s.numInputSamples ∧
    (skipPitchPeriod s w speed period).2.inputBuffer = s.inputBuffer := by
  simp only [skipPitchPeriod]
  split_ifs <;> exact numInput_enlargeOutput _ _

theorem numInput_insertPitchPeriod (s : SonicStream) (w : ℕ → ℚ) (speed : ℚ) (period : ℕ) :
    (insertPitchPeriod s w speed period).2.numInputSamples = s.numInputSamples ∧
    (insertPitchPeriod s w speed period).2.inputBuffer = s.inputBuffer := by
  simp only [insertPitchPeriod]
  split_ifs <;> exact numInput_enlargeOutput _ _

theorem numInput_writeStep (speed : ℚ) (s : SonicStream) (position : ℕ) :
    (writeStep speed s position).2.2.numInputSamples = s.numInputSamples ∧
    (writeStep speed s position).2.2.inputBuffer = s.inputBuffer := by
  simp only [writeStep]
  split_ifs
  · exact numInput_copyInputToOutput s position
  · exact numInput_skipPitchPeriod s _ speed _
  · exact numInput_insertPitchPeriod s _ speed _

theorem writeLoop_success_numInput (speed : ℚ) (maxRequired numSamples : ℕ)
    (h0 : 0 < maxRequired) :
    ∀ (fuel position : ℕ) (s : SonicStream), s.numInputSamples = numSamples →
      (writeLoop speed maxRequired numSamples fuel position s).1 ≠ 0 →
      (writeLoop speed maxRequired numSamples fuel position s).2.numInputSamples <
        maxRequired := by
  intro fuel
  induction fuel with
  | zero => intro position s _ hne; exact absurd rfl hne
  | succ n ih =>
    intro position s hnum hne
    rw [writeLoop] at hne ⊢
    split_ifs at hne ⊢ with h1 h2
    · exact absurd rfl hne
    · exact ih _ _ ((numInput_writeStep speed s position).1.trans hnum) hne
    · have := (numInput_writeStep speed s position).1.trans hnum
      simp only [removeInputSamples, this]
      omega

theorem copyToOutput_nil_result (s : SonicStream) :
    (copyToOutput s []).1 = 0 := by
  simp only [copyToOutput]
  split_ifs <;> simp

theorem write_nil_success_numInput (s : SonicStream) (h0 : 0 < s.maxRequired) :
    (sonicWriteToStream s []).1 ≠ 0 →
    (sonicWriteToStream s []).2.numInputSamples < s.maxRequired := by
  simp only [sonicWriteToStream]
  split_ifs with hid hadd hlt
  · intro hne; exact absurd (copyToOutput_nil_result s) hne
  · intro _
    have : (addSamplesToInputBuffer s []).2 = s := by simp [addSamplesToInputBuffer]
    rw [this]
    rw [this] at hlt
    exact hlt
  · exact writeLoop_success_numInput s.speed _ _ h0 _ _ _ rfl
  · intro hne; exact absurd rfl hne

theorem maxRequired_write (s : SonicStream) (cs : List ℚ) :
    (sonicWriteToStream s cs).2.maxRequired = s.maxRequired := by
  have h : (sonicWriteToStream s cs).2.minPeriod = s.minPeriod ∧
      (sonicWriteToStream s cs).2.maxPeriod = s.maxPeriod ∧
      (sonicWriteToStream s cs).2.maxRequired = s.maxRequired := by
    simpa [SonicStream.periodCfg, Prod.ext_iff] using periodCfg_write s cs
  exact h.2.2

theorem numInput_read (s : SonicStream) (k : ℕ) :
    (sonicReadFromStream s k).2.numInputSamples = s.numInputSamples ∧
    (sonicReadFromStream s k).2.inputBuffer = s.inputBuffer := by
  simp only [sonicReadFromStream]
  split_ifs <;> exact ⟨rfl, rfl⟩

/-- C2 (amended): a successful `sonicFlushStream` leaves the input queue
holding strictly fewer than `maxRequired` samples — the zero-padded tail that
the final driver pass did not consume — but not necessarily empty; and
subsequent reads only drain the output queue, never touching the input queue. -/
theorem c2_flush_bounded (s : SonicStream) (h0 : 0 < s.maxRequired)
    (hsucc : (sonicFlushStream s).1 ≠ 0) :
    (sonicFlushStream s).2.numInputSamples < s.maxRequired ∧
    (∀ k, (sonicReadFromStream (sonicFlushStream s).2 k).2.numInputSamples =
            (sonicFlushStream s).2.numInputSamples ∧
          (sonicReadFromStream (sonicFlushStream s).2 k).2.inputBuffer =
            (sonicFlushStream s).2.inputBuffer) := by
  refine ⟨?_, fun k => numInput_read _ k⟩
  simp only [sonicFlushStream] at hsucc ⊢
  split_ifs at hsucc ⊢ with h1 h2 h3 h4
  · simpa [h1] using h0
  · simp at hsucc
  · have hmr : (sonicWriteToStream s []).2.maxRequired = s.maxRequired :=
      maxRequired_write s []
    exact lt_of_lt_of_le
      (write_nil_success_numInput _ (lt_of_lt_of_eq h0 hmr.symm) hsucc) (le_of_eq hmr)
  · exact h4.elim
  · exact write_nil_success_numInput _ h0 hsucc

/-- A stream state used as the C2 counterexample: speed 2, period range
`[2, 3]`, `maxRequired = 6`, one queued zero sample, ample output capacity,
and an allocator that always succeeds. -/
def c2CexStream : SonicStream :=
  { speed := 2, inputBuffer := some [0], outputBuffer := some [],
    inputBufferSize := 6, outputBufferSize := 20, numInputSamples := 1,
    numOutputSamples := 0, minPeriod := 2, maxPeriod := 3, maxRequired := 6,
    remainingInputToCopy := 0, sampleRate := 100, tick := 0, oracle := fun _ => true }

set_option maxRecDepth 100000 in
attribute [local semireducible] Rat.add Rat.mul Rat.inv Rat.sub Rat.ofScientific in
/-- C2 counterexample: `sonicFlushStream` returns success (1) on this stream,
yet afterwards the input queue still holds 2 samples, not 0 — the flush pads
the queue to `maxRequired = 6` zeros, the driver pass consumes only
`period + newSamples = 4` of them, and `removeInputSamples` leaves the rest
queued.  This refutes "after it returns the stream's input queue is empty". -/
theorem c2_cex_flush_leaves_input :
    (sonicFlushStream c2CexStream).1 = 1 ∧
    (sonicFlushStream c2CexStream).2.numInputSamples = 2 := by
  constructor <;> decide

set_option maxRecDepth 100000 in
attribute [local semireducible] Rat.add Rat.mul Rat.inv Rat.sub Rat.ofScientific in
/-- C2 witness: the amended bound applied to a concrete stream with a
non-empty input queue, on which flush pads with zeros, runs a driver pass and
succeeds. -/
theorem c2_flush_bounded_w :
    (0 < c2CexStream.maxRequired ∧ (sonicFlushStream c2CexStream).1 ≠ 0) ∧
    (sonicFlushStream c2CexStream).2.numInputSamples < c2CexStream.maxRequired :=
  ⟨⟨by decide, by decide⟩,
    (c2_flush_bounded c2CexStream (by decide) (by decide)).1⟩

theorem enlargeOutput_oracle_true (s : SonicStream) (n : ℕ) (hor : ∀ i, s.oracle i = true) :
    (enlargeOutputBufferIfNeeded s n).1 = true ∧
    (enlargeOutputBufferIfNeeded s n).2.outputBuffer = s.outputBuffer ∧
    (enlargeOutputBufferIfNeeded s n).2.numOutputSamples = s.numOutputSamples ∧
    (enlargeOutputBufferIfNeeded s n).2.speed = s.speed ∧
    (enlargeOutputBufferIfNeeded s n).2.oracle = s.oracle ∧
    (enlargeOutputBufferIfNeeded s n).2.remainingInputToCopy = s.remainingInputToCopy := by
  simp only [enlargeOutputBufferIfNeeded]
  split_ifs with h1 h2
  · exact ⟨rfl, rfl, rfl, rfl, rfl, rfl⟩
  · exact absurd (hor s.tick) h2
  · exact ⟨rfl, rfl, rfl, rfl, rfl, rfl⟩

/-- The identity-window bypass of `sonicWriteToStream`: with a never-failing
allocator, the samples are appended verbatim to the output queue and the
sample count is returned. -/
theorem write_identity (s : SonicStream) (cs out : List ℚ)
    (hid : (999999/1000000 : ℚ) < s.speed ∧ s.speed < 1000001/1000000)
    (hor : ∀ i, s.oracle i = true) (hout : s.outputBuffer = some out) :
    (sonicWriteToStream s cs).1 = cs.length ∧
    (sonicWriteToStream s cs).2.outputBuffer = some (out ++ cs) ∧
    (sonicWriteToStream s cs).2.numOutputSamples = s.numOutputSamples + cs.length ∧
    (sonicWriteToStream s cs).2.speed = s.speed ∧
    (∀ i, (sonicWriteToStream s cs).2.oracle i = true) := by
  obtain ⟨e1, e2, e3, e4, e5, -⟩ := enlargeOutput_oracle_true s cs.length hor
  simp only [sonicWriteToStream, if_pos hid, copyToOutput, e1, if_true, e2, e3, e4, e5,
    hout, Option.getD_some]
  refine ⟨?_, ?_, ?_, ?_, fun i => hor i⟩ <;> trivial

/-- A sequence of `sonicWriteToStream` calls, one chunk after another. -/
def writeAll (s : SonicStream) (chunks : List (List ℚ)) : SonicStream :=
  chunks.foldl (fun t c => (sonicWriteToStream t c).2) s

/-- A sequence of `sonicReadFromStream` calls with the given chunk sizes; the
first component concatenates everything read. -/
def readAll : SonicStream → List ℕ → List ℚ × SonicStream
  | s, [] => ([], s)
  | s, k :: ks =>
    let r := sonicReadFromStream s k
    let q := readAll r.2 ks
    (r.1 ++ q.1, q.2)

theorem writeAll_identity : ∀ (chunks : List (List ℚ)) (s : SonicStream) (out : List ℚ),
    ((999999/1000000 : ℚ) < s.speed ∧ s.speed < 1000001/1000000) →
    (∀ i, s.oracle i = true) → s.outputBuffer = some out →
    s.numOutputSamples = out.length →
    (writeAll s chunks).outputBuffer = some (out ++ chunks.join) ∧
    (writeAll s chunks).numOutputSamples = (out ++ chunks.join).length := by
  intro chunks
  induction chunks with
  | nil => intro s out _ _ hout hnum; simpa [writeAll, hout] using hnum
  | cons c cs ih =>
    intro s out hid hor hout hnum
    obtain ⟨w1, w2, w3, w4, w5⟩ := write_identity s c out hid hor hout
    have hall : writeAll s (c :: cs) = writeAll (sonicWriteToStream s c).2 cs := rfl
    obtain ⟨g1, g2⟩ := ih (sonicWriteToStream s c).2 (out ++ c)
      (by rw [w4]; exact hid) w5 w2 (by rw [w3, hnum]; simp)
    rw [hall, g1, g2]
    simp

theorem readAll_take : ∀ (ks : List ℕ) (s : SonicStream) (out : List ℚ),
    s.outputBuffer = some out → s.numOutputSamples = out.length →
    (readAll s ks).1 = out.take ks.sum := by
  intro ks
  induction ks with
  | nil => intro s out _ _; simp [readAll]
  | cons k ks ih =>
    intro s out hout hnum
    obtain ⟨r1, r2, r3, -, -⟩ := read_spec s out k hout hnum
    have : (readAll (sonicReadFromStream s k).2 ks).1 = (out.drop k).take ks.sum :=
      ih _ _ r2 (by rw [r3, List.length_drop])
    simp only [readAll, r1, this, List.sum_cons]
    exact (List.take_add out k ks.sum).symm

/-- C1: for a stream in the identity speed window (with a never-failing
allocator and an initially empty output queue), any sequence of writes
followed by reads whose size budget covers everything written returns exactly
the concatenation of all written samples, unchanged and in order: the bypass
appends input directly to the output queue and reads pop it FIFO. -/
theorem c1_identity_roundtrip (s : SonicStream) (chunks : List (List ℚ)) (sizes : List ℕ)
    (hid : (999999/1000000 : ℚ) < s.speed ∧ s.speed < 1000001/1000000)
    (hor : ∀ i, s.oracle i = true)
    (hout : s.outputBuffer = some []) (hnum : s.numOutputSamples = 0)
    (hsum : chunks.join.length ≤ sizes.sum) :
    (readAll (writeAll s chunks) sizes).1 = chunks.join := by
  obtain ⟨o1, o2⟩ := writeAll_identity chunks s [] hid hor hout (by simpa using hnum)
  rw [readAll_take sizes _ _ (by simpa using o1) (by simpa using o2)]
  exact List.take_of_length_le hsum

/-- C1 witness: two writes `[1, 2]`, `[3]` followed by reads of sizes 2 and 5
on a freshly created identity-speed stream return `[1, 2, 3]`. -/
theorem c1_identity_roundtrip_w :
    (readAll (writeAll (sonicCreateStream (fun _ => true) 1 8000) [[1, 2], [3]]) [2, 5]).1 =
      ([[1, 2], [3]] : List (List ℚ)).join :=
  c1_identity_roundtrip (sonicCreateStream (fun _ => true) 1 8000) [[1, 2], [3]] [2, 5]
    (by constructor <;> norm_num [sonicCreateStream]) (fun i => rfl) rfl rfl (by decide)

/-- C5: behaviour of a successful `skipPitchPeriod` call (speed > 1, allocator
never failing): for `speed ≥ 2`, `newSamples = ⌊period/(speed-1)⌋` and the
verbatim-copy debt is untouched; for `1 < speed < 2`, `newSamples = period`
and the debt becomes `⌊period*(2-speed)/(speed-1)⌋`; the appended run is the
crossfade `out[t] = (window[t]*(newSamples-t) + window[t+period]*t)/newSamples`
for `t ∈ [0, newSamples)`; and the driver then advances its input position by
`period + newSamples`. -/
theorem c5_skipPitchPeriod_spec (s : SonicStream) (w : ℕ → ℚ) (speed : ℚ) (period : ℕ)
    (out : List ℚ)
    (h1 : 1 < speed) (hor : ∀ i, s.oracle i = true) (hout : s.outputBuffer = some out) :
    (2 ≤ speed →
      (skipPitchPeriod s w speed period).1 = truncNat ((period : ℚ) / (speed - 1)) ∧
      (skipPitchPeriod s w speed period).2.remainingInputToCopy =
        s.remainingInputToCopy) ∧
    (speed < 2 →
      (skipPitchPeriod s w speed period).1 = period ∧
      (skipPitchPeriod s w speed period).2.remainingInputToCopy =
        truncNat ((period : ℚ) * (2 - speed) / (speed - 1))) ∧
    (skipPitchPeriod s w speed period).2.outputBuffer =
      some (out ++ (List.range (skipPitchPeriod s w speed period).1).map
        (fun t => (w t * (((skipPitchPeriod s w speed period).1 : ℚ) - t) +
            w (t + period) * t) / ((skipPitchPeriod s w speed period).1 : ℚ))) ∧
    (∀ position, s.remainingInputToCopy = 0 →
      (writeStep speed s position).2.1 =
        position + findPitchPeriod s (winAt s position) +
          (skipPitchPeriod s (winAt s position) speed
            (findPitchPeriod s (winAt s position))).1) := by
  have hdrv : ∀ position, s.remainingInputToCopy = 0 →
      (writeStep speed s position).2.1 =
        position + findPitchPeriod s (winAt s position) +
          (skipPitchPeriod s (winAt s position) speed
            (findPitchPeriod s (winAt s position))).1 := by
    intro position hrem
    simp only [writeStep, hrem, lt_irrefl, if_false, if_pos h1]
  refine ⟨fun hsp => ?_, fun hsp2 => ?_, ?_, hdrv⟩
  · obtain ⟨e1, -, -, -, -, e6⟩ :=
      enlargeOutput_oracle_true s (truncNat ((period : ℚ) / (speed - 1))) hor
    simp only [skipPitchPeriod, if_pos hsp, e1, if_true, e6]
    constructor <;> trivial
  · obtain ⟨e1, -, -, -, -, e6⟩ := enlargeOutput_oracle_true
      { s with remainingInputToCopy := truncNat ((period : ℚ) * (2 - speed) / (speed - 1)) }
      period hor
    simp only [skipPitchPeriod, if_neg (not_le.mpr hsp2), e1, if_true, e6]
    constructor <;> trivial
  · by_cases hsp : 2 ≤ speed
    · obtain ⟨e1, e2, -, -, -, -⟩ :=
        enlargeOutput_oracle_true s (truncNat ((period : ℚ) / (speed - 1))) hor
      simp only [skipPitchPeriod, if_pos hsp, e1, if_true, e2, hout, Option.getD_some]
      simp [one_div, ← div_eq_inv_mul]
    · obtain ⟨e1, e2, -, -, -, -⟩ := enlargeOutput_oracle_true
        { s with remainingInputToCopy := truncNat ((period : ℚ) * (2 - speed) / (speed - 1)) }
        period hor
      rw [hout] at e1 e2
      simp only [skipPitchPeriod, if_neg hsp, e1, if_true, e2, hout, Option.getD_some]
      simp [one_div, ← div_eq_inv_mul]

/-- C5 witness: a concrete successful skip at speed 3 with period 2. -/
theorem c5_skipPitchPeriod_spec_w :
    let s : SonicStream :=
      { speed := 3, inputBuffer := some [], outputBuffer := some [],
        inputBufferSize := 6, outputBufferSize := 6, numInputSamples := 0,
        numOutputSamples := 0, minPeriod := 2, maxPeriod := 3, maxRequired := 6,
        remainingInputToCopy := 0, sampleRate := 100, tick := 0, oracle := fun _ => true }
    (1 : ℚ) < 3 ∧
    ((2 : ℚ) ≤ 3 →
      (skipPitchPeriod s (fun i => (i : ℚ)) 3 2).1 = truncNat (((2 : ℕ) : ℚ) / (3 - 1)) ∧
      (skipPitchPeriod s (fun i => (i : ℚ)) 3 2).2.remainingInputToCopy =
        s.remainingInputToCopy) :=
  ⟨by norm_num,
    (c5_skipPitchPeriod_spec _ (fun i => (i : ℚ)) 3 2 [] (by norm_num) (fun i => rfl) rfl).1⟩

/-- C6: behaviour of a successful `insertPitchPeriod` call (speed < 1,
allocator never failing): for `speed < 0.5`, `newSamples =
⌊period*speed/(1-speed)⌋` and the verbatim-copy debt is untouched; for
`0.5 ≤ speed < 1`, `newSamples = period` and the debt becomes
`⌊period*(2*speed-1)/(1-speed)⌋`; the appended output is the full period
verbatim followed by the crossfade
`out[t] = (window[t]*t + window[t+period]*(newSamples-t))/newSamples`; and the
driver then advances its input position by `newSamples` only, not by
`period + newSamples`. -/
theorem c6_insertPitchPeriod_spec (s : SonicStream) (w : ℕ → ℚ) (speed : ℚ) (period : ℕ)
    (out : List ℚ)
    (h1 : speed < 1) (hor : ∀ i, s.oracle i = true) (hout : s.outputBuffer = some out) :
    (speed < 1/2 →
      (insertPitchPeriod s w speed period).1 =
        truncNat ((period : ℚ) * speed / (1 - speed)) ∧
      (insertPitchPeriod s w speed period).2.remainingInputToCopy =
        s.remainingInputToCopy) ∧
    (1/2 ≤ speed →
      (insertPitchPeriod s w speed period).1 = period ∧
      (insertPitchPeriod s w speed period).2.remainingInputToCopy =
        truncNat ((period : ℚ) * (2 * speed - 1) / (1 - speed))) ∧
    (insertPitchPeriod s w speed period).2.outputBuffer =
      some (out ++ (List.range period).map w ++
        (List.range (insertPitchPeriod s w speed period).1).map
          (fun t => (w t * t + w (t + period) *
              (((insertPitchPeriod s w speed period).1 : ℚ) - t)) /
            ((insertPitchPeriod s w speed period).1 : ℚ))) ∧
    (∀ position, s.remainingInputToCopy = 0 →
      (writeStep speed s position).2.1 =
        position + (insertPitchPeriod s (winAt s position) speed
          (findPitchPeriod s (winAt s position))).1) := by
  have hdrv : ∀ position, s.remainingInputToCopy = 0 →
      (writeStep speed s position).2.1 =
        position + (insertPitchPeriod s (winAt s position) speed
          (findPitchPeriod s (winAt s position))).1 := by
    intro position hrem
    simp only [writeStep, hrem, lt_irrefl, if_false, if_neg (not_lt.mpr h1.le)]
  refine ⟨fun hsp => ?_, fun hsp2 => ?_, ?_, hdrv⟩
  · obtain ⟨e1, -, -, -, -, e6⟩ := enlargeOutput_oracle_true s
      (period + truncNat ((period : ℚ) * speed / (1 - speed))) hor
    simp only [insertPitchPeriod, if_pos hsp, e1, if_true, e6]
    constructor <;> trivial
  · obtain ⟨e1, -, -, -, -, e6⟩ := enlargeOutput_oracle_true
      { s with remainingInputToCopy := truncNat ((period : ℚ) * (2 * speed - 1) / (1 - speed)) }
      (period + period) hor
    simp only [insertPitchPeriod, if_neg (not_lt.mpr hsp2), e1, if_true, e6]
    constructor <;> trivial
  · by_cases hsp : speed < 1/2
    · obtain ⟨e1, e2, -, -, -, -⟩ := enlargeOutput_oracle_true s
        (period + truncNat ((period : ℚ) * speed / (1 - speed))) hor
      rw [hout] at e2
      simp only [insertPitchPeriod, if_pos hsp, e1, if_true, e2, hout, Option.getD_some]
      simp [one_div, ← div_eq_inv_mul]
    · obtain ⟨e1, e2, -, -, -, -⟩ := enlargeOutput_oracle_true
        { s with remainingInputToCopy := truncNat ((period : ℚ) * (2 * speed - 1) / (1 - speed)) }
        (period + period) hor
      rw [hout] at e1 e2
      simp only [insertPitchPeriod, if_neg hsp, e1, if_true, e2, hout, Option.getD_some]
      simp [one_div, ← div_eq_inv_mul]

/-- C6 witness: a concrete successful insert at speed 1/4 with period 3. -/
theorem c6_insertPitchPeriod_spec_w :
    let s : SonicStream :=
      { speed := 1/4, inputBuffer := some [], outputBuffer := some [],
        inputBufferSize := 6, outputBufferSize := 6, numInputSamples := 0,
        numOutputSamples := 0, minPeriod := 2, maxPeriod := 3, maxRequired := 6,
        remainingInputToCopy := 0, sampleRate := 100, tick := 0, oracle := fun _ => true }
    (1 : ℚ)/4 < 1 ∧
    ((1 : ℚ)/4 < 1/2 →
      (insertPitchPeriod s (fun i => (i : ℚ)) (1/4) 3).1 =
        truncNat (((3 : ℕ) : ℚ) * (1/4) / (1 - 1/4)) ∧
      (insertPitchPeriod s (fun i => (i : ℚ)) (1/4) 3).2.remainingInputToCopy =
        s.remainingInputToCopy) :=
  ⟨by norm_num,
    (c6_insertPitchPeriod_spec _ (fun i => (i : ℚ)) (1/4) 3 [] (by norm_num)
      (fun i => rfl) rfl).1⟩

/-- The candidate periods `start, start+skip, start+2*skip, … ≤ maxP` visited
by `fpprLoop`, fuel-structured in lockstep with it. -/
def candsLoop (maxP skip : ℕ) : ℕ → ℕ → List ℕ
  | 0, _ => []
  | fuel + 1, start =>
    if start ≤ maxP then start :: candsLoop maxP skip fuel (start + skip) else []

/-- The candidate set `{minP, minP+skip, minP+2*skip, …} ∩ [minP, maxP]` of the
AMDF search. -/
def cands (minP maxP skip : ℕ) : List ℕ := candsLoop maxP skip (maxP + 1) minP

/-- The normalised AMDF value the search minimises:
`diffQ w skip p = (Σ_{i = 0, skip, 2*skip, … < p} |w i - w (i+p)|) / p`. -/
def diffQ (w : ℕ → ℚ) (skip p : ℕ) : ℚ := amdfSum w skip p / p

/-- One selection step of the AMDF search: candidate `p` displaces the current
best `(b, minDiff)` only when `b` is still unset or `p`'s un-normalised sum is
strictly below `minDiff * p` (the source's multiplied form of
`diff/p < minDiff`). -/
def amdfStep (w : ℕ → ℚ) (skip : ℕ) (b : ℕ × ℚ) (p : ℕ) : ℕ × ℚ :=
  if b.1 = 0 ∨ amdfSum w skip p < b.2 * p then (p, amdfSum w skip p / p) else b

theorem fpprLoop_eq_foldl (w : ℕ → ℚ) (maxP skip : ℕ) :
    ∀ (fuel start b : ℕ) (d : ℚ),
      fpprLoop w maxP skip fuel start b d =
        (List.foldl (amdfStep w skip) (b, d) (candsLoop maxP skip fuel start)).1 := by
  intro fuel
  induction fuel with
  | zero => intro start b d; rfl
  | succ n ih =>
    intro start b d
    simp only [fpprLoop, candsLoop]
    by_cases h : start ≤ maxP
    · rw [if_pos h, if_pos h, List.foldl_cons]
      by_cases hc : b = 0 ∨ amdfSum w skip start < d * start
      · rw [if_pos hc, ih]
        congr 1
        simp [amdfStep, hc]
      · rw [if_neg hc, ih]
        congr 1
        simp only [amdfStep]
        rw [if_neg hc]
    · rw [if_neg h, if_neg h]
      rfl

theorem candsLoop_mem_bounds (maxP skip : ℕ) :
    ∀ (fuel start p : ℕ), p ∈ candsLoop maxP skip fuel start → start ≤ p ∧ p ≤ maxP := by
  intro fuel
  induction fuel with
  | zero => intro start p hp; simp [candsLoop] at hp
  | succ n ih =>
    intro start p hp
    simp only [candsLoop] at hp
    split_ifs at hp with h
    · rcases List.mem_cons.mp hp with rfl | hp
      · exact ⟨le_refl _, h⟩
      · obtain ⟨h1, h2⟩ := ih (start + skip) p hp
        exact ⟨by omega, h2⟩
    · simp at hp

theorem candsLoop_sorted (maxP skip : ℕ) (hskip : 1 ≤ skip) :
    ∀ (fuel start : ℕ), (candsLoop maxP skip fuel start).Sorted (· < ·) := by
  intro fuel
  induction fuel with
  | zero => intro start; simp [candsLoop]
  | succ n ih =>
    intro start
    simp only [candsLoop]
    split_ifs with h
    · refine List.sorted_cons.mpr ⟨?_, ih (start + skip)⟩
      intro p hp
      have := (candsLoop_mem_bounds maxP skip n (start + skip) p hp).1
      omega
    · simp

theorem candsLoop_mem_iff (maxP skip : ℕ) (hskip : 1 ≤ skip) :
    ∀ (fuel start p : ℕ), maxP + 1 ≤ fuel + start →
      (p ∈ candsLoop maxP skip fuel start ↔ (∃ k, p = start + skip * k) ∧ p ≤ maxP) := by
  intro fuel
  induction fuel with
  | zero =>
    intro start p hfuel
    simp only [candsLoop, List.not_mem_nil, false_iff]
    rintro ⟨⟨k, rfl⟩, hle⟩
    omega
  | succ n ih =>
    intro start p hfuel
    simp only [candsLoop]
    split_ifs with h
    · rw [List.mem_cons]
      constructor
      · rintro (rfl | hp)
        · exact ⟨⟨0, by omega⟩, h⟩
        · obtain ⟨⟨k, rfl⟩, h2⟩ := (ih (start + skip) _ (by omega)).mp hp
          exact ⟨⟨k + 1, by rw [Nat.mul_succ]; omega⟩, h2⟩
      · rintro ⟨⟨k, rfl⟩, h2⟩
        cases k with
        | zero => left; omega
        | succ k =>
          right
          refine (ih (start + skip) _ (by omega)).mpr ⟨⟨k, ?_⟩, h2⟩
          rw [Nat.mul_succ]
          omega
    · simp only [List.not_mem_nil, false_iff]
      rintro ⟨⟨k, rfl⟩, h2⟩
      omega

theorem foldl_amdfStep_argmin (w : ℕ → ℚ) (skip : ℕ) :
    ∀ (l : List ℕ) (b : ℕ), 1 ≤ b → (∀ p ∈ l, b < p) → l.Sorted (· < ·) →
      ((List.foldl (amdfStep w skip) (b, diffQ w skip b) l).1 = b ∨
        (List.foldl (amdfStep w skip) (b, diffQ w skip b) l).1 ∈ l) ∧
      b ≤ (List.foldl (amdfStep w skip) (b, diffQ w skip b) l).1 ∧
      diffQ w skip (List.foldl (amdfStep w skip) (b, diffQ w skip b) l).1 ≤
        diffQ w skip b ∧
      (∀ p ∈ l, diffQ w skip (List.foldl (amdfStep w skip) (b, diffQ w skip b) l).1 ≤
        diffQ w skip p) ∧
      ((List.foldl (amdfStep w skip) (b, diffQ w skip b) l).1 ≠ b →
        diffQ w skip (List.foldl (amdfStep w skip) (b, diffQ w skip b) l).1 <
          diffQ w skip b) ∧
      (∀ p ∈ l, p < (List.foldl (amdfStep w skip) (b, diffQ w skip b) l).1 →
        diffQ w skip (List.foldl (amdfStep w skip) (b, diffQ w skip b) l).1 <
          diffQ w skip p) := by
  intro l
  induction l with
  | nil =>
    intro b hb _ _
    exact ⟨Or.inl rfl, le_refl _, le_refl _, by simp, fun h => absurd rfl h, by simp⟩
  | cons q t ih =>
    intro b hb hgt hsort
    have hq : b < q := hgt q (List.mem_cons_self q t)
    have hq1 : 1 ≤ q := by omega
    have hqpos : (0 : ℚ) < (q : ℚ) := by exact_mod_cast hq1
    have hstep : amdfStep w skip (b, diffQ w skip b) q =
        if diffQ w skip q < diffQ w skip b then (q, diffQ w skip q) else (b, diffQ w skip b) := by
      have hb0 : ¬ (b = 0) := by omega
      have hcond : (b = 0 ∨ amdfSum w skip q < diffQ w skip b * q) ↔
          diffQ w skip q < diffQ w skip b := by
        rw [or_iff_right hb0]
        exact (div_lt_iff hqpos).symm
      simp only [amdfStep]
      rw [if_congr hcond rfl rfl]
      rfl
    obtain ⟨hqlt, hsort2⟩ := List.sorted_cons.mp hsort
    rw [List.foldl_cons, hstep]
    by_cases hc : diffQ w skip q < diffQ w skip b
    · rw [if_pos hc]
      obtain ⟨i1, i2, i3, i4, i5, i6⟩ := ih q hq1 hqlt hsort2
      refine ⟨?_, ?_, ?_, ?_, ?_, ?_⟩
      · refine Or.inr ?_
        rcases i1 with h | h
        · rw [h]; exact List.mem_cons_self q t
        · exact List.mem_cons_of_mem q h
      · omega
      · exact i3.trans hc.le
      · intro p hp
        rcases List.mem_cons.mp hp with rfl | hp
        · exact i3
        · exact i4 p hp
      · intro _
        exact lt_of_le_of_lt i3 hc
      · intro p hp hpr
        rcases List.mem_cons.mp hp with rfl | hp
        · exact i5 (by omega)
        · exact i6 p hp hpr
    · rw [if_neg hc]
      have hle : diffQ w skip b ≤ diffQ w skip q := not_lt.mp hc
      obtain ⟨i1, i2, i3, i4, i5, i6⟩ :=
        ih b hb (fun p hp => hgt p (List.mem_cons_of_mem q hp)) hsort2
      refine ⟨?_, i2, i3, ?_, i5, ?_⟩
      · exact i1.imp id (List.mem_cons_of_mem q)
      · intro p hp
        rcases List.mem_cons.mp hp with rfl | hp
        · exact i3.trans hle
        · exact i4 p hp
      · intro p hp hpr
        rcases List.mem_cons.mp hp with rfl | hp
        · have hrb : (List.foldl (amdfStep w skip) (b, diffQ w skip b) t).1 ≠ b := by omega
          exact lt_of_lt_of_le (i5 hrb) hle
        · exact i6 p hp hpr

/-- C7: for every window, every range `1 ≤ minP ≤ maxP` and every stride
`skip ≥ 1`, `findPitchPeriodInRange` returns a member of the candidate set
`{minP, minP+skip, minP+2*skip, …} ∩ [minP, maxP]` whose normalised AMDF value
`diffQ` is minimal among all candidates, and every numerically smaller (i.e.
earlier-visited) candidate has a strictly larger value — the first candidate
achieving the minimum wins, later candidates displace the best only when
strictly smaller. -/
theorem c7_findPitchPeriodInRange_argmin (w : ℕ → ℚ) (minP maxP skip : ℕ)
    (hmin : 1 ≤ minP) (hskip : 1 ≤ skip) (hrange : minP ≤ maxP) :
    findPitchPeriodInRange w minP maxP skip ∈ cands minP maxP skip ∧
    (∀ p ∈ cands minP maxP skip,
      diffQ w skip (findPitchPeriodInRange w minP maxP skip) ≤ diffQ w skip p) ∧
    (∀ p ∈ cands minP maxP skip,
      p < findPitchPeriodInRange w minP maxP skip →
      diffQ w skip (findPitchPeriodInRange w minP maxP skip) < diffQ w skip p) ∧
    (∀ p, p ∈ cands minP maxP skip ↔ (∃ k, p = minP + skip * k) ∧ p ≤ maxP) := by
  have hchar : ∀ p, p ∈ cands minP maxP skip ↔ (∃ k, p = minP + skip * k) ∧ p ≤ maxP :=
    fun p => candsLoop_mem_iff maxP skip hskip (maxP + 1) minP p (by omega)
  have hunfold : findPitchPeriodInRange w minP maxP skip =
      (List.foldl (amdfStep w skip) (minP, diffQ w skip minP)
        (candsLoop maxP skip maxP (minP + skip))).1 := by
    simp only [findPitchPeriodInRange, fpprLoop, if_pos hrange]
    rw [if_pos (Or.inl trivial)]
    rw [fpprLoop_eq_foldl]
    rfl
  have hcands : cands minP maxP skip = minP :: candsLoop maxP skip maxP (minP + skip) := by
    simp only [cands, candsLoop, if_pos hrange]
  obtain ⟨i1, i2, i3, i4, i5, i6⟩ := foldl_amdfStep_argmin w skip
    (candsLoop maxP skip maxP (minP + skip)) minP hmin
    (fun p hp => by
      have := (candsLoop_mem_bounds maxP skip maxP (minP + skip) p hp).1
      omega)
    (candsLoop_sorted maxP skip hskip maxP (minP + skip))
  rw [hunfold, hcands]
  refine ⟨?_, ?_, ?_, fun p => hcands ▸ hchar p⟩
  · rcases i1 with h | h
    · rw [h]; exact List.mem_cons_self _ _
    · exact List.mem_cons_of_mem _ h
  · intro p hp
    rcases List.mem_cons.mp hp with rfl | hp
    · exact i3
    · exact i4 p hp
  · intro p hp hpr
    rcases List.mem_cons.mp hp with rfl | hp
    · exact i5 (by omega)
    · exact i6 p hp hpr

/-- C7 witness: the argmin property instantiated at a concrete impulse window
with range `[1, 3]` and stride 1. -/
theorem c7_findPitchPeriodInRange_argmin_w :
    (1 ≤ 1 ∧ 1 ≤ 1 ∧ 1 ≤ 3) ∧
    findPitchPeriodInRange (fun i => if i = 0 then 1 else 0) 1 3 1 ∈ cands 1 3 1 ∧
    (∀ p ∈ cands 1 3 1,
      diffQ (fun i => if i = 0 then 1 else 0) 1
        (findPitchPeriodInRange (fun i => if i = 0 then 1 else 0) 1 3 1) ≤
      diffQ (fun i => if i = 0 then 1 else 0) 1 p) :=
  ⟨⟨le_refl 1, le_refl 1, by omega⟩,
    (c7_findPitchPeriodInRange_argmin (fun i => if i = 0 then 1 else 0) 1 3 1
      (le_refl 1) (le_refl 1) (by omega)).1,
    (c7_findPitchPeriodInRange_argmin (fun i => if i = 0 then 1 else 0) 1 3 1
      (le_refl 1) (le_refl 1) (by omega)).2.1⟩
